import Mathlib

/-!
Verification of the agent-routing and streaming-conversation orchestrator of a
multi-persona writing assistant.  The JavaScript/TypeScript sources
(`src/components/CollaborativeEditor.tsx`, `src/services/geminiService.ts`) are
shallowly embedded: JS strings become `List Char`, the remote model gateway
becomes an explicit oracle record, thrown exceptions become `Except Unit`, and
every function is total and executable.  JS builtins (`String.prototype.split`,
`trim`, `toLowerCase`, `replace`, `JSON.parse`, `JSON.stringify`) are modelled
by Lean functions faithful to their specified semantics on Unicode scalar
values; `.length` counts scalar values (UTF-16 surrogate pairs are not
modelled, all literals in play are BMP).
-/

set_option maxRecDepth 4096

namespace WS

/-! ## JS string primitives -/

/-- White-space test used by the model of JS `String.prototype.trim`
(the common WhiteSpace / LineTerminator code points). -/
def isWsT (c : Char) : Bool :=
  c = ' ' || c = '\t' || c = '\n' || c = '\r' || c = '\x0b' || c = '\x0c' ||
  c = '\u00A0' || c = '\uFEFF'

/-- Model of JS `s.trim()`: drop white space from both ends. -/
def trimL (l : List Char) : List Char :=
  ((l.dropWhile isWsT).reverse.dropWhile isWsT).reverse

/-- Model of JS truthiness-based defaulting `a || b` for strings. -/
def jsOr (a b : List Char) : List Char := if a = [] then b else a

/-- Model of JS `s.toLowerCase()` (character-wise; the literals compared
against are ASCII so the ASCII `Char.toLower` suffices). -/
def toLowerL (l : List Char) : List Char := l.map Char.toLower

/-- Model of JS `s.replace(/"/g, '')`: remove every double-quote character. -/
def stripQuotes (l : List Char) : List Char := l.filter (fun c => c ≠ '"')

/-- Fueled worker for `splitOnL`; the fuel is the length of the list, which is
enough because every step consumes at least one character. -/
def splitGo (sep : List Char) : Nat → List Char → List (List Char)
  | 0, l => [l]
  | _ + 1, [] => [[]]
  | fuel + 1, x :: xs =>
    if 0 < sep.length ∧ sep.isPrefixOf (x :: xs) then
      [] :: splitGo sep fuel ((x :: xs).drop sep.length)
    else
      (splitGo sep fuel xs).modifyHead (x :: ·)

/-- Model of JS `s.split(sep)` for a non-empty literal separator: split at
every non-overlapping occurrence, scanning left to right. -/
def splitOnL (sep l : List Char) : List (List Char) := splitGo sep l.length l

/-- Fueled worker for `replaceAllL`. -/
def replaceGo (pat : List Char) : Nat → List Char → List Char
  | 0, l => l
  | _ + 1, [] => []
  | fuel + 1, x :: xs =>
    if 0 < pat.length ∧ pat.isPrefixOf (x :: xs) then
      replaceGo pat fuel ((x :: xs).drop pat.length)
    else
      x :: replaceGo pat fuel xs

/-- Model of JS `s.replace(/pat/g, '')` for a literal pattern: delete every
non-overlapping occurrence, scanning left to right, without rescanning the
already-produced output. -/
def replaceAllL (pat l : List Char) : List Char := replaceGo pat l.length l

/-! ## JSON values, `JSON.parse` and `JSON.stringify`

`parseMessageContent` in `CollaborativeEditor.tsx` feeds the suffix after the
suggestion delimiter to `JSON.parse`, and the round-trip property quotes
`JSON.stringify` on an array of strings.  Both builtins are modelled here.
Numbers are kept as their raw token (the claims never depend on numeric
value, which spares the model any floating-point semantics); `\uXXXX` escapes
denoting surrogate code points are rejected rather than producing lone
surrogates, which no claim exercises. -/

inductive Json where
  | null : Json
  | bool (b : Bool) : Json
  | num (raw : List Char) : Json
  | str (s : List Char) : Json
  | arr (elems : List Json) : Json
  | obj (members : List (List Char × Json)) : Json

/-- JSON insignificant white space (ECMA-404: space, tab, LF, CR). -/
def isWsJ (c : Char) : Bool := c = ' ' || c = '\t' || c = '\n' || c = '\r'

/-- Skip JSON white space. -/
def skipWs (l : List Char) : List Char := l.dropWhile isWsJ

/-- Value of one hexadecimal digit. -/
def hexVal (c : Char) : Option Nat :=
  if '0' ≤ c ∧ c ≤ '9' then some (c.toNat - '0'.toNat)
  else if 'a' ≤ c ∧ c ≤ 'f' then some (c.toNat - 'a'.toNat + 10)
  else if 'A' ≤ c ∧ c ≤ 'F' then some (c.toNat - 'A'.toNat + 10)
  else none

/-- Lower-case hexadecimal digit for a value below 16. -/
def hexDig (n : Nat) : Char :=
  if n < 10 then Char.ofNat ('0'.toNat + n) else Char.ofNat ('a'.toNat + n - 10)

/-- Parse the body of a JSON string literal (the opening quote already
consumed); returns the decoded characters and the input after the closing
quote.  Unescaped control characters are rejected, as ECMA-404 requires. -/
def parseStrBody : List Char → Option (List Char × List Char)
  | [] => none
  | c :: rest =>
    if c = '"' then some ([], rest)
    else if c = '\\' then
      match rest with
      | [] => none
      | e :: rest2 =>
        if e = '"' then (parseStrBody rest2).map (fun p => ('"' :: p.1, p.2))
        else if e = '\\' then (parseStrBody rest2).map (fun p => ('\\' :: p.1, p.2))
        else if e = '/' then (parseStrBody rest2).map (fun p => ('/' :: p.1, p.2))
        else if e = 'b' then (parseStrBody rest2).map (fun p => ('\x08' :: p.1, p.2))
        else if e = 'f' then (parseStrBody rest2).map (fun p => ('\x0c' :: p.1, p.2))
        else if e = 'n' then (parseStrBody rest2).map (fun p => ('\n' :: p.1, p.2))
        else if e = 'r' then (parseStrBody rest2).map (fun p => ('\r' :: p.1, p.2))
        else if e = 't' then (parseStrBody rest2).map (fun p => ('\t' :: p.1, p.2))
        else if e = 'u' then
          match rest2 with
          | h1 :: h2 :: h3 :: h4 :: rest3 =>
            match hexVal h1, hexVal h2, hexVal h3, hexVal h4 with
            | some a, some b, some cc, some d =>
              let n := ((a * 16 + b) * 16 + cc) * 16 + d
              if n < 0xd800 ∨ 0xe000 ≤ n then
                (parseStrBody rest3).map (fun p => (Char.ofNat n :: p.1, p.2))
              else none
            | _, _, _, _ => none
          | _ => none
        else none
    else if c.toNat < 0x20 then none
    else (parseStrBody rest).map (fun p => (c :: p.1, p.2))

/-- Parse a non-empty run of decimal digits. -/
def parseDigits (l : List Char) : Option (List Char × List Char) :=
  let ds := l.takeWhile (fun c => '0' ≤ c && c ≤ '9')
  if ds.isEmpty then none else some (ds, l.drop ds.length)

/-- Parse the integer part of a JSON number: `0`, or a digit run not starting
with `0`. -/
def parseIntPart : List Char → Option (List Char × List Char)
  | [] => none
  | c :: t =>
    if c = '0' then some (['0'], t)
    else if '0' ≤ c ∧ c ≤ '9' then parseDigits (c :: t)
    else none

/-- Parse an optional fraction part `.digits`. -/
def parseFrac (l : List Char) : Option (List Char × List Char) :=
  match l with
  | '.' :: t => (parseDigits t).map (fun p => ('.' :: p.1, p.2))
  | _ => some ([], l)

/-- Parse an optional exponent part `e[+-]?digits`. -/
def parseExp (l : List Char) : Option (List Char × List Char) :=
  match l with
  | [] => some ([], l)
  | c :: t =>
    if c = 'e' ∨ c = 'E' then
      match t with
      | [] => none
      | s :: t2 =>
        if s = '+' ∨ s = '-' then (parseDigits t2).map (fun p => (c :: s :: p.1, p.2))
        else (parseDigits t).map (fun p => (c :: p.1, p.2))
    else some ([], l)

/-- Parse a JSON number token (sign, integer part, fraction, exponent),
returning the raw token. -/
def parseNumber (l : List Char) : Option (List Char × List Char) :=
  let body : List Char → Option (List Char × List Char) := fun m => do
    let (i, r1) ← parseIntPart m
    let (f, r2) ← parseFrac r1
    let (e, r3) ← parseExp r2
    pure (i ++ f ++ e, r3)
  match l with
  | '-' :: t => (body t).map (fun p => ('-' :: p.1, p.2))
  | _ => body l

mutual

/-- Fueled recursive-descent parser for one JSON value; returns the value and
the unconsumed input.  The fuel only decreases with nesting and list
position, so `length + 1` fuel at top level is always sufficient. -/
def parseValue : Nat → List Char → Option (Json × List Char)
  | 0, _ => none
  | fuel + 1, input =>
    match skipWs input with
    | [] => none
    | c :: rest =>
      if c = '"' then (parseStrBody rest).map (fun p => (.str p.1, p.2))
      else if c = '[' then
        let r0 := skipWs rest
        if r0.headD ' ' = ']' then some (.arr [], r0.tail)
        else (parseElems fuel r0).map (fun p => (.arr p.1, p.2))
      else if c = '\x7b' then
        let r0 := skipWs rest
        if r0.headD ' ' = '\x7d' then some (.obj [], r0.tail)
        else (parseMembers fuel r0).map (fun p => (.obj p.1, p.2))
      else if c = 't' then
        match rest with
        | 'r' :: 'u' :: 'e' :: r => some (.bool true, r)
        | _ => none
      else if c = 'f' then
        match rest with
        | 'a' :: 'l' :: 's' :: 'e' :: r => some (.bool false, r)
        | _ => none
      else if c = 'n' then
        match rest with
        | 'u' :: 'l' :: 'l' :: r => some (.null, r)
        | _ => none
      else (parseNumber (c :: rest)).map (fun p => (.num p.1, p.2))

/-- Parse the elements of a non-empty JSON array, up to and including the
closing bracket. -/
def parseElems : Nat → List Char → Option (List Json × List Char)
  | 0, _ => none
  | fuel + 1, input =>
    match parseValue fuel input with
    | none => none
    | some (v, rest) =>
      match skipWs rest with
      | [] => none
      | c :: r =>
        if c = ',' then (parseElems fuel r).map (fun p => (v :: p.1, p.2))
        else if c = ']' then some ([v], r)
        else none

/-- Parse the members of a non-empty JSON object, up to and including the
closing brace. -/
def parseMembers : Nat → List Char → Option (List (List Char × Json) × List Char)
  | 0, _ => none
  | fuel + 1, input =>
    match skipWs input with
    | '"' :: rest =>
      match parseStrBody rest with
      | none => none
      | some (k, r1) =>
        match skipWs r1 with
        | ':' :: r2 =>
          match parseValue fuel r2 with
          | none => none
          | some (v, r3) =>
            match skipWs r3 with
            | ',' :: r4 => (parseMembers fuel r4).map (fun p => ((k, v) :: p.1, p.2))
            | '\x7d' :: r4 => some ([(k, v)], r4)
            | _ => none
        | _ => none
    | _ => none

end

/-- Model of JS `JSON.parse`: parse one value and require only white space to
remain; `none` models a thrown `SyntaxError`. -/
def jsonParse (l : List Char) : Option Json :=
  match parseValue (l.length + 1) l with
  | some (v, rest) => if skipWs rest = [] then some v else none
  | none => none

/-- Escape of one character inside a JSON string literal, exactly as
`JSON.stringify` emits it. -/
def escChar (c : Char) : List Char :=
  if c = '"' then ['\\', '"']
  else if c = '\\' then ['\\', '\\']
  else if c = '\x08' then ['\\', 'b']
  else if c = '\x0c' then ['\\', 'f']
  else if c = '\n' then ['\\', 'n']
  else if c = '\r' then ['\\', 'r']
  else if c = '\t' then ['\\', 't']
  else if c.toNat < 0x20 then
    ['\\', 'u', '0', '0', hexDig (c.toNat / 16), hexDig (c.toNat % 16)]
  else [c]

/-- Escaped body of a JSON string literal. -/
def escBody (s : List Char) : List Char := (s.map escChar).flatten

/-- A JSON string literal as `JSON.stringify` emits it. -/
def escStr (s : List Char) : List Char := '"' :: escBody s ++ ['"']

/-- Comma-joined element list of `JSON.stringify` on an array of strings. -/
def encodeElems : List (List Char) → List Char
  | [] => []
  | [s] => escStr s
  | s :: rest => escStr s ++ ',' :: encodeElems rest

/-- Model of JS `JSON.stringify` on an array of strings (no indentation
argument, hence no inserted white space). -/
def jsonStringifyList (l : List (List Char)) : List Char :=
  '[' :: encodeElems l ++ [']']

/-! ## Suggestion-chip parser (`parseMessageContent`, CollaborativeEditor.tsx 202-216) -/

/-- Literal delimiter separating display text from the suggestion payload. -/
def SUGGESTION_DELIM : List Char := ":::SUGGESTIONS:::".data

/-- Result of `parseMessageContent`.  In the source, `suggestions` is declared
`string[]` but receives whatever `JSON.parse` produced, unvalidated; the model
therefore carries a `Json` value, with `Json.arr []` standing for the `[]` the
variable is initialised with and keeps when parsing throws. -/
structure ParsedMessage where
  cleanText : List Char
  suggestions : Json

/-- Embedding of `parseMessageContent`: split on the delimiter, trim the first
part, and try to `JSON.parse` the trimmed second part, swallowing parse
failure.  Total by construction, which is the model of never throwing. -/
def parseMessageContent (content : List Char) : ParsedMessage :=
  let parts := splitOnL SUGGESTION_DELIM content
  let cleanText := trimL (parts.headD [])
  let suggestions :=
    if 1 < parts.length then
      match jsonParse (trimL (parts.getD 1 [])) with
      | some v => v
      | none => Json.arr []
    else Json.arr []
  ⟨cleanText, suggestions⟩

/-! ## Agent identities and the router (`determineNextAgent`, geminiService.ts 115-156) -/

/-- The five agent identities of `types.ts` (`RoleId`). -/
inductive RoleId where
  | polisher : RoleId
  | chief : RoleId
  | researcher : RoleId
  | executor : RoleId
  | editor : RoleId
deriving DecidableEq, Repr

/-- String value of each `RoleId` enum member in `types.ts`. -/
def roleStr : RoleId → List Char
  | .polisher => "polisher".data
  | .chief => "chief".data
  | .researcher => "researcher".data
  | .executor => "executor".data
  | .editor => "editor".data

/-- Normalisation applied to the raw router reply:
`response.text?.trim().toLowerCase().replace(/"/g, '')`. -/
def rawNormalize (s : List Char) : List Char := stripQuotes (toLowerL (trimL s))

/-- The `|| RoleId.CHIEF` defaulting applied to an absent or
empty-after-normalisation reply. -/
def normalizeRouterText (t : Option (List Char)) : List Char :=
  match t with
  | none => roleStr .chief
  | some s =>
    let n := rawNormalize s
    if n = [] then roleStr .chief else n

/-- Embedding of `determineNextAgent`.  The prompt construction and the model
call are external; the argument is the gateway outcome (`.error` models a
rejected call, caught by the function's own try/catch; `.ok none` models a
response without text).  The membership test against the four allowed
identities and the final `CHIEF` fallback are as in the source. -/
def determineNextAgent (resp : Except Unit (Option (List Char))) : RoleId :=
  match resp with
  | .error _ => .chief
  | .ok t =>
    let text := normalizeRouterText t
    if text = roleStr .chief then .chief
    else if text = roleStr .researcher then .researcher
    else if text = roleStr .executor then .executor
    else if text = roleStr .editor then .editor
    else .chief

/-! ## `applyEditorFixes` (geminiService.ts 376-411) -/

/-- Markdown fence pattern stripped by `applyEditorFixes`. -/
def FENCE : List Char := "```".data

/-- Fence-plus-language pattern stripped first by `applyEditorFixes`. -/
def FENCE_MD : List Char := "```markdown".data

/-- Embedding of the post-processing of `applyEditorFixes`: take the gateway
text (empty if absent), delete every occurrence of ```` ```markdown ````, then
every occurrence of ```` ``` ````, then trim.  A rejected gateway call
propagates to the caller and is handled there (the source has no try/catch
here), so the argument is just the resolved `response.text`. -/
def applyEditorFixes (t : Option (List Char)) : List Char :=
  trimL (replaceAllL FENCE (replaceAllL FENCE_MD (t.getD [])))

/-! ## The conversation orchestrator (`handleSend`, CollaborativeEditor.tsx 68-196) -/

/-- Message roles of `ChatMessage` in `types.ts`. -/
inductive MsgRole where
  | user : MsgRole
  | model : MsgRole
deriving DecidableEq, Repr

/-- Embedding of `ChatMessage` (`types.ts`).  `id` is a natural drawn from a
counter standing in for `crypto.randomUUID()`; `timestamp` carries the
`Date.now()` value, irrelevant to every claim and set to 0 by the model. -/
structure ChatMessage where
  id : Nat
  role : MsgRole
  text : List Char
  timestamp : Nat
  isThinking : Bool
  agentId : Option RoleId
deriving DecidableEq, Repr

/-- The component state of `CollaborativeEditor` touched by `handleSend`,
including the shared project context passed in as props.  `nextId` is the
fresh-id counter modelling `crypto.randomUUID()`. -/
structure EditorState where
  messages : List ChatMessage
  inputValue : List Char
  isProcessing : Bool
  draftContent : List Char
  researchNotes : List Char
  projectTopic : List Char
  nextId : Nat
deriving DecidableEq, Repr

/-- Oracle for the model gateway: one resolved-or-rejected outcome per service
function a single turn can consume.  `.error ()` models a rejected promise;
an `Option` payload models `response.text` possibly being `undefined`;
streamed calls resolve to the list of chunk texts in delivery order. -/
structure Gateway where
  routerText : Except Unit (Option (List Char))
  researchText : Except Unit (Option (List Char))
  executorChunks : Except Unit (List (List Char))
  criticChunks : Except Unit (List (List Char))
  chiefChunks : Except Unit (List (List Char))
  fixesText : Except Unit (Option (List Char))

/-- Observation log of a turn: how often the router ran, the critique texts
handed to `applyEditorFixes`, and the subjects handed to `critiqueDraft`. -/
structure CallLog where
  routerCalls : Nat
  fixesCritiques : List (List Char)
  criticSubjects : List (List Char)
deriving DecidableEq, Repr

/-- Literal the special-command check compares against. -/
def FIX_CMD : List Char := "请你帮我一键修改".data

/-- Fallback critique used when no earlier editor message exists. -/
def FIX_FALLBACK : List Char := "请优化全文".data

/-- Placeholder text of the pending one-click-fix message. -/
def FIX_BUSY : List Char := "没问题，我正在根据之前的评审意见进行全篇修改，请稍候...".data

/-- Confirmation text (with suggestion chips) finalising the one-click-fix
message. -/
def FIX_DONE : List Char :=
  "✅ 已根据毒舌主编的意见完成修改，并自动更新了右侧草稿。\n\n你可以检查一下，或者继续进行下一步。\n\n:::SUGGESTIONS::: [\"继续完善草稿\", \"再次评审\", \"完成项目\"]".data

/-- Generic error literal substituted by the catch handler. -/
def ERR_LIT : List Char := "发生错误，请重试。".data

/-- Fallback shown when research yields no text. -/
def NO_RESEARCH : List Char := "没有找到相关调研结果。".data

/-- Research-notes header prefix prepended before the user topic. -/
def NOTES_PRE : List Char := "\n\n--- 调研主题: ".data

/-- Research-notes header suffix between topic and result. -/
def NOTES_POST : List Char := " ---\n".data

/-- Leading part of the nothing-to-review reply of the editor branch. -/
def NO_REVIEW_PRE : List Char :=
  "请先生成草稿，或者直接把要评审的内容发给我。\n\n:::SUGGESTIONS::: [".data

/-- Chip offered when a draft exists. -/
def CHIP_REVIEW : List Char := "评审当前草稿".data

/-- Chip offered when no draft exists. -/
def CHIP_WRITE : List Char := "我来写一段".data

/-- The nothing-to-review reply, whose single chip depends on whether a draft
exists (`draftContent ? "评审当前草稿" : "我来写一段"`). -/
def noReviewMsg (draft : List Char) : List Char :=
  NO_REVIEW_PRE ++ (if draft = [] then CHIP_WRITE else CHIP_REVIEW) ++ "]".data

/-- Embedding of the `updateAiMessage` closure: set the text of the message
with the given id and clear its thinking flag. -/
def updateAiMessage (aiMsgId : Nat) (text : List Char)
    (msgs : List ChatMessage) : List ChatMessage :=
  msgs.map fun m =>
    if m.id = aiMsgId then { m with text := text, isThinking := false } else m

/-- Embedding of the streaming loop `for await (const chunk of stream)`:
append each chunk to the running text and call `updateAiMessage` with the
accumulated text after every chunk. -/
def streamLoop (aiMsgId : Nat) : List (List Char) → List Char →
    List ChatMessage → List ChatMessage
  | [], _, msgs => msgs
  | c :: cs, full, msgs =>
    streamLoop aiMsgId cs (full ++ c) (updateAiMessage aiMsgId (full ++ c) msgs)

/-- Embedding of the catch handler: every still-thinking model message gets
the generic error literal and its thinking flag cleared. -/
def catchMap (msgs : List ChatMessage) : List ChatMessage :=
  msgs.map fun m =>
    if m.role = .model ∧ m.isThinking then
      { m with text := ERR_LIT, isThinking := false }
    else m

/-- Error exit shared by every dispatch branch: apply the catch handler and
the finally clause (`setIsProcessing(false)`). -/
def errFinish (s : EditorState) : EditorState :=
  { s with messages := catchMap s.messages, isProcessing := false }

/-- Embedding of `handleSend`.  The asynchronous fire-and-forget topic
extraction (lines 83-87) runs concurrently, does not take part in this turn's
synchronous transition and is not modelled; everything else follows the
source line by line.  Returns the poststate and the call log. -/
def handleSend (g : Gateway) (textOverride : Option (List Char))
    (s : EditorState) : EditorState × CallLog :=
  let textToSend := textOverride.getD s.inputValue
  if trimL textToSend = [] then (s, ⟨0, [], []⟩)
  else
    let userMsg : ChatMessage :=
      ⟨s.nextId, .user, textToSend, 0, false, none⟩
    let s1 : EditorState :=
      { s with messages := s.messages ++ [userMsg], inputValue := [],
               isProcessing := true, nextId := s.nextId + 1 }
    let aiMsgId := s1.nextId
    if textToSend = FIX_CMD then
      -- special flow: one-click fix (lines 90-118)
      let lastCritique := s.messages.reverse.find? fun m =>
        m.agentId == some RoleId.editor && m.role == MsgRole.model
      let critiqueText := match lastCritique with
        | some m => m.text
        | none => FIX_FALLBACK
      let busyMsg : ChatMessage :=
        ⟨aiMsgId, .model, FIX_BUSY, 0, true, some .editor⟩
      let s2 : EditorState :=
        { s1 with messages := s1.messages ++ [busyMsg], nextId := aiMsgId + 1 }
      match g.fixesText with
      | .error _ => (errFinish s2, ⟨0, [critiqueText], []⟩)
      | .ok t =>
        let result := applyEditorFixes t
        let s3 := { s2 with draftContent := jsOr result s2.draftContent }
        let finalize : ChatMessage → ChatMessage := fun m =>
          if m.id = aiMsgId then { m with text := FIX_DONE, isThinking := false } else m
        let s4 := { s3 with messages := s3.messages.map finalize }
        ({ s4 with isProcessing := false }, ⟨0, [critiqueText], []⟩)
    else
      let target := determineNextAgent g.routerText
      let aiMsg : ChatMessage := ⟨aiMsgId, .model, [], 0, true, some target⟩
      let s2 : EditorState :=
        { s1 with messages := s1.messages ++ [aiMsg], nextId := aiMsgId + 1 }
      if target = .researcher then
        match g.researchText with
        | .error _ => (errFinish s2, ⟨1, [], []⟩)
        | .ok t =>
          let result := t.getD []
          let s3 := { s2 with
            messages := updateAiMessage aiMsgId (jsOr result NO_RESEARCH) s2.messages }
          let s4 := if result ≠ [] then
              { s3 with researchNotes :=
                  s3.researchNotes ++ NOTES_PRE ++ userMsg.text ++ NOTES_POST ++ result }
            else s3
          ({ s4 with isProcessing := false }, ⟨1, [], []⟩)
      else if target = .executor then
        match g.executorChunks with
        | .error _ => (errFinish s2, ⟨1, [], []⟩)
        | .ok chunks =>
          ({ s2 with messages := streamLoop aiMsgId chunks [] s2.messages,
                     isProcessing := false }, ⟨1, [], []⟩)
      else if target = .editor then
        let contentToReview :=
          if 50 < userMsg.text.length then userMsg.text else s.draftContent
        if contentToReview = [] then
          let msgs' := updateAiMessage aiMsgId (noReviewMsg s.draftContent) s2.messages
          ({ s2 with messages := msgs', isProcessing := false }, ⟨1, [], []⟩)
        else
          match g.criticChunks with
          | .error _ => (errFinish s2, ⟨1, [], [contentToReview]⟩)
          | .ok chunks =>
            ({ s2 with messages := streamLoop aiMsgId chunks [] s2.messages,
                       isProcessing := false }, ⟨1, [], [contentToReview]⟩)
      else
        match g.chiefChunks with
        | .error _ => (errFinish s2, ⟨1, [], []⟩)
        | .ok chunks =>
          ({ s2 with messages := streamLoop aiMsgId chunks [] s2.messages,
                     isProcessing := false }, ⟨1, [], []⟩)

/-! ## General helper lemmas -/

/-- Mapping a function that fixes every member of a list is the identity. -/
theorem map_eq_self_of {α : Type} (f : α → α) :
    ∀ l : List α, (∀ a ∈ l, f a = a) → l.map f = l
  | [], _ => rfl
  | a :: l, h => by
    rw [List.map_cons, h a (List.mem_cons_self a l),
      map_eq_self_of f l (fun x hx => h x (List.mem_cons_of_mem a hx))]

/-- Trimming produces an infix of the original list. -/
theorem trimL_isInfix (l : List Char) : trimL l <:+: l := by
  have h2 : trimL l <+: l.dropWhile isWsT := by
    apply List.reverse_suffix.mp
    rw [trimL, List.reverse_reverse]
    exact List.dropWhile_suffix isWsT
  exact h2.isInfix.trans (List.dropWhile_suffix isWsT).isInfix

/-! ## `updateAiMessage` and the streaming loop -/

/-- Effect of `updateAiMessage` on a message list in which exactly the
distinguished message carries the target id. -/
theorem updateAiMessage_split (aid : Nat) (t : List Char)
    (pre post : List ChatMessage) (m0 : ChatMessage) (h0 : m0.id = aid)
    (hpre : ∀ m ∈ pre, m.id ≠ aid) (hpost : ∀ m ∈ post, m.id ≠ aid) :
    updateAiMessage aid t (pre ++ m0 :: post) =
      pre ++ { m0 with text := t, isThinking := false } :: post := by
  unfold updateAiMessage
  rw [List.map_append, List.map_cons]
  rw [map_eq_self_of _ pre (fun m hm => if_neg (hpre m hm))]
  rw [map_eq_self_of _ post (fun m hm => if_neg (hpost m hm))]
  rw [if_pos h0]

/-- Full characterisation of the streaming loop: the tracked message ends up
holding the accumulated text followed by all chunks in delivery order, and
its thinking flag survives only when no chunk at all was delivered. -/
theorem streamLoop_split (aid : Nat) (agent : Option RoleId)
    (pre post : List ChatMessage)
    (hpre : ∀ m ∈ pre, m.id ≠ aid) (hpost : ∀ m ∈ post, m.id ≠ aid)
    (chunks : List (List Char)) :
    ∀ (full : List Char) (b : Bool),
      streamLoop aid chunks full
        (pre ++ (⟨aid, .model, full, 0, b, agent⟩ : ChatMessage) :: post) =
      pre ++ (⟨aid, .model, full ++ chunks.flatten, 0,
              if chunks = [] then b else false, agent⟩ : ChatMessage) :: post := by
  induction chunks with
  | nil => intro full b; simp [streamLoop]
  | cons c cs ih =>
    intro full b
    rw [streamLoop,
      updateAiMessage_split aid (full ++ c) pre post _ rfl hpre hpost]
    have h2 := ih (full ++ c) false
    rw [show ({ (⟨aid, .model, full, 0, b, agent⟩ : ChatMessage) with
        text := full ++ c, isThinking := false } : ChatMessage) =
        ⟨aid, .model, full ++ c, 0, false, agent⟩ from rfl, h2]
    simp [List.append_assoc]

/-! ## Claim C1: streamed text assembly and the pending flag -/

/-- Claim C1 (amended): for a stream delivered as a list of increments applied
to the pending placeholder message, the final text is the concatenation of
all increments in delivery order; the pending (`isThinking`) flag, however,
is already false after the FIRST increment is applied — every non-empty
prefix of the increment list leaves the flag false, not only the full list.
(The original claim, that the flag stays true until the last increment, is
refuted by `claim_C1_counterexample`.) -/
theorem claim_C1_stream_assembly (aid : Nat) (agent : Option RoleId)
    (pre post : List ChatMessage) (chunks : List (List Char))
    (hpre : ∀ m ∈ pre, m.id ≠ aid) (hpost : ∀ m ∈ post, m.id ≠ aid) :
    (streamLoop aid chunks []
        (pre ++ (⟨aid, .model, [], 0, true, agent⟩ : ChatMessage) :: post) =
      pre ++ (⟨aid, .model, chunks.flatten, 0, chunks.isEmpty, agent⟩ :
        ChatMessage) :: post) ∧
    (∀ k, 1 ≤ k → k ≤ chunks.length →
      streamLoop aid (chunks.take k) []
          (pre ++ (⟨aid, .model, [], 0, true, agent⟩ : ChatMessage) :: post) =
        pre ++ (⟨aid, .model, (chunks.take k).flatten, 0, false, agent⟩ :
          ChatMessage) :: post) := by
  constructor
  · rw [streamLoop_split aid agent pre post hpre hpost chunks [] true]
    cases chunks <;> simp
  · intro k hk1 hk2
    rw [streamLoop_split aid agent pre post hpre hpost (chunks.take k) [] true]
    have hne : chunks.take k ≠ [] := by
      rw [Ne, List.take_eq_nil_iff]
      push_neg
      constructor
      · omega
      · intro h
        subst h
        simp only [List.length_nil] at hk2
        omega
    rw [if_neg hne]
    simp

/-- Witness for C1 at a concrete input: two increments and a clean context. -/
theorem claim_C1_witness :
    streamLoop 7 [['a'], ['b']] []
        ([] ++ (⟨7, .model, [], 0, true, some .chief⟩ : ChatMessage) :: []) =
      [] ++ (⟨7, .model, ['a', 'b'], 0, false, some .chief⟩ : ChatMessage) :: [] :=
  ((claim_C1_stream_assembly 7 (some .chief) [] [] [['a'], ['b']]
      (by simp) (by simp)).1).trans (by decide)

/-- Counterexample to C1 as stated: with two increments, the pending flag is
already false after only the first increment has been applied (1 < 2
increments remain outstanding), so it does not stay true while earlier
increments are merged. -/
theorem claim_C1_counterexample :
    streamLoop 1 ([['a'], ['b']].take 1) []
        [(⟨1, .model, [], 0, true, some .chief⟩ : ChatMessage)] =
      [(⟨1, .model, ['a'], 0, false, some .chief⟩ : ChatMessage)] ∧
    (1 : Nat) < [['a'], ['b']].length := by
  constructor
  · decide
  · decide

/-! ## Claim C4: router validation and defaulting -/

/-- Claim C4: whenever the normalised router reply (trimmed, lower-cased,
quotes stripped) is not one of the four allowed identity strings — which
covers `polisher`, arbitrary strings and the empty string — and whenever the
gateway call is rejected or returns no text, `determineNextAgent` resolves to
the default identity `chief`.  The function is total, which models that it
never raises. -/
theorem claim_C4_router_default (resp : Except Unit (Option (List Char)))
    (h : ∀ s, resp = .ok (some s) →
      rawNormalize s ∉ [roleStr .chief, roleStr .researcher,
        roleStr .executor, roleStr .editor]) :
    determineNextAgent resp = .chief := by
  match resp with
  | .error _ => rfl
  | .ok none => rfl
  | .ok (some s) =>
    have hs := h s rfl
    simp only [List.mem_cons, List.not_mem_nil, or_false, not_or] at hs
    obtain ⟨h1, h2, h3, h4⟩ := hs
    simp only [determineNextAgent, normalizeRouterText]
    by_cases h0 : rawNormalize s = []
    · simp [h0]
    · simp [h0, h1, h2, h3, h4]

/-- Witness for C4: a quoted upper-case reply naming the forbidden analyzer
identity normalises to `polisher` and is coerced to `chief`. -/
theorem claim_C4_witness :
    determineNextAgent (.ok (some " \"POLISHER\" ".data)) = .chief :=
  claim_C4_router_default _ (by intro s hs; cases hs; decide)

/-! ## Claim C3: the special command bypasses the router -/

/-- Claim C3: when the submitted text equals the special-command literal, the
turn handler never invokes the agent router — the router call count of the
turn is zero. -/
theorem claim_C3_special_bypasses_router (g : Gateway) (s : EditorState)
    (ov : Option (List Char)) (h : ov.getD s.inputValue = FIX_CMD) :
    (handleSend g ov s).2.routerCalls = 0 := by
  simp only [handleSend, h]
  rw [if_neg (by decide : ¬ (trimL FIX_CMD = []))]
  rw [if_pos trivial]
  cases g.fixesText <;> rfl

/-- Witness for C3 at a concrete gateway and state. -/
theorem claim_C3_witness :
    (handleSend
      ⟨.ok (some "editor".data), .error (), .error (), .error (), .error (),
        .ok (some "x".data)⟩
      (some FIX_CMD) ⟨[], [], false, [], [], [], 0⟩).2.routerCalls = 0 :=
  claim_C3_special_bypasses_router _ _ _ rfl

/-! ## Claim C9: the rewritten draft never contains a code fence

The interesting consequence is that removing every left-to-right occurrence
of three backticks cannot leave (or create) a remaining occurrence.  The key
invariant is the count of leading backticks. -/

/-- The backtick character. -/
def btick : Char := '\x60'

/-- Number of leading backticks of a character list. -/
def leadTicks : List Char → Nat
  | [] => 0
  | c :: t => if c = btick then leadTicks t + 1 else 0

theorem fence_eq_list : FENCE = [btick, btick, btick] := by decide

theorem leadTicks_cons_btick (t : List Char) :
    leadTicks (btick :: t) = leadTicks t + 1 := by simp [leadTicks]

theorem leadTicks_cons_ne {c : Char} (t : List Char) (h : ¬ c = btick) :
    leadTicks (c :: t) = 0 := by simp [leadTicks, h]

/-- A fence prefix is exactly three leading backticks. -/
theorem fence_isPrefixOf_iff (l : List Char) :
    FENCE.isPrefixOf l = true ↔ ∃ t, l = btick :: btick :: btick :: t := by
  rw [List.isPrefixOf_iff_prefix]
  constructor
  · rintro ⟨t, ht⟩
    refine ⟨t, ?_⟩
    rw [← ht, fence_eq_list]
    rfl
  · rintro ⟨t, rfl⟩
    exact ⟨t, by rw [fence_eq_list]; rfl⟩

/-- One leading backtick exposes the head. -/
theorem leadTicks_pos (l : List Char) (h : 1 ≤ leadTicks l) :
    ∃ t, l = btick :: t := by
  match l with
  | [] => simp [leadTicks] at h
  | c :: t =>
    by_cases hc : c = btick
    · exact ⟨t, by rw [hc]⟩
    · rw [leadTicks_cons_ne t hc] at h
      omega

/-- Three leading backticks are the same as a fence prefix. -/
theorem fence_isPrefixOf_iff_leadTicks (l : List Char) :
    FENCE.isPrefixOf l = true ↔ 3 ≤ leadTicks l := by
  rw [fence_isPrefixOf_iff]
  constructor
  · rintro ⟨t, rfl⟩
    simp [leadTicks_cons_btick]
  · intro h
    obtain ⟨t1, rfl⟩ := leadTicks_pos l (by omega)
    rw [leadTicks_cons_btick] at h
    obtain ⟨t2, rfl⟩ := leadTicks_pos t1 (by omega)
    rw [leadTicks_cons_btick] at h
    obtain ⟨t3, rfl⟩ := leadTicks_pos t2 (by omega)
    exact ⟨t3, rfl⟩

/-- Deleting fences never increases the number of leading backticks. -/
theorem leadTicks_replaceGo (fuel : Nat) :
    ∀ l : List Char, l.length ≤ fuel →
      leadTicks (replaceGo FENCE fuel l) ≤ leadTicks l := by
  induction fuel with
  | zero =>
    intro l _
    simp [replaceGo]
  | succ fuel ih =>
    intro l hlen
    match l with
    | [] => simp [replaceGo]
    | x :: xs =>
      rw [replaceGo]
      by_cases hp : 0 < FENCE.length ∧ FENCE.isPrefixOf (x :: xs)
      · rw [if_pos hp]
        obtain ⟨t, ht⟩ := (fence_isPrefixOf_iff _).mp hp.2
        have hlt : (x :: xs).length = t.length + 3 := by rw [ht]; simp
        have hd : (x :: xs).drop FENCE.length = t := by
          rw [ht, fence_eq_list]
          rfl
        rw [hd]
        calc leadTicks (replaceGo FENCE fuel t) ≤ leadTicks t := by
              apply ih
              simp only [List.length_cons] at hlt hlen
              omega
          _ ≤ leadTicks (x :: xs) := by
              rw [ht, leadTicks_cons_btick, leadTicks_cons_btick,
                leadTicks_cons_btick]
              omega
      · rw [if_neg hp]
        by_cases hx : x = btick
        · subst hx
          rw [leadTicks_cons_btick, leadTicks_cons_btick]
          have := ih xs (by simp only [List.length_cons] at hlen; omega)
          omega
        · rw [leadTicks_cons_ne _ hx]
          omega

/-- Deleting every fence leaves no fence behind. -/
theorem replaceGo_no_fence (fuel : Nat) :
    ∀ l : List Char, l.length ≤ fuel →
      ¬ FENCE <:+: replaceGo FENCE fuel l := by
  induction fuel with
  | zero =>
    intro l hlen hinf
    have hl : l = [] := List.length_eq_zero.mp (Nat.le_zero.mp hlen)
    subst hl
    rw [show replaceGo FENCE 0 [] = [] from rfl, List.infix_nil] at hinf
    exact (by decide : FENCE ≠ []) hinf
  | succ fuel ih =>
    intro l hlen hinf
    match l with
    | [] =>
      rw [show replaceGo FENCE (fuel + 1) [] = [] from rfl,
        List.infix_nil] at hinf
      exact (by decide : FENCE ≠ []) hinf
    | x :: xs =>
      rw [replaceGo] at hinf
      by_cases hp : 0 < FENCE.length ∧ FENCE.isPrefixOf (x :: xs)
      · rw [if_pos hp] at hinf
        obtain ⟨t, ht⟩ := (fence_isPrefixOf_iff _).mp hp.2
        have hlt : (x :: xs).length = t.length + 3 := by rw [ht]; simp
        have hd : (x :: xs).drop FENCE.length = t := by
          rw [ht, fence_eq_list]
          rfl
        rw [hd] at hinf
        exact ih t (by simp only [List.length_cons] at hlt hlen; omega) hinf
      · rw [if_neg hp] at hinf
        rcases List.infix_cons_iff.mp hinf with hpre | hinf2
        · obtain ⟨t, ht⟩ := hpre
          rw [fence_eq_list] at ht
          -- ht : btick :: btick :: btick :: t = x :: replaceGo FENCE fuel xs
          have hx : x = btick := by
            have := congrArg (fun l => l.headD ' ') ht
            simpa using this.symm
          have htail : replaceGo FENCE fuel xs = btick :: btick :: t := by
            have := congrArg List.tail ht
            simpa using this.symm
          have h2 : 2 ≤ leadTicks (replaceGo FENCE fuel xs) := by
            rw [htail, leadTicks_cons_btick, leadTicks_cons_btick]
            omega
          have h3 : leadTicks (replaceGo FENCE fuel xs) ≤ leadTicks xs :=
            leadTicks_replaceGo fuel xs
              (by simp only [List.length_cons] at hlen; omega)
          have h4 : ¬ 3 ≤ leadTicks (x :: xs) := by
            intro hge
            exact hp ⟨by decide, (fence_isPrefixOf_iff_leadTicks _).mpr hge⟩
          rw [hx, leadTicks_cons_btick] at h4
          omega
        · exact ih xs (by simp only [List.length_cons] at hlen; omega) hinf2

/-- Decidable check that a character list contains a markdown fence. -/
def containsFence (l : List Char) : Bool := decide (FENCE <:+: l)

/-- Claim C9: `applyEditorFixes` returns the gateway text with every
occurrence of the fence patterns removed and the result trimmed, so the
rewritten draft can never contain a triple-backtick fence (first conjunct),
and an absent gateway text yields the empty string (second conjunct). -/
theorem claim_C9_fixes_strip_fences :
    (∀ t : Option (List Char), containsFence (applyEditorFixes t) = false) ∧
    applyEditorFixes none = [] := by
  constructor
  · intro t
    rw [containsFence, decide_eq_false_iff_not]
    intro hinf
    have h1 := trimL_isInfix (replaceAllL FENCE (replaceAllL FENCE_MD (t.getD [])))
    rw [applyEditorFixes] at hinf
    exact replaceGo_no_fence _ _ (Nat.le_refl _) (hinf.trans h1)
  · rfl

/-! ## Claims C6 and C10: behaviour of the suggestion parser on the payload -/

/-- Claim C6: when the raw text contains the delimiter and the segment after
it is not valid JSON, the parser returns the trimmed prefix as display text
and an empty suggestions list — the delimiter and the malformed payload are
dropped.  `parseMessageContent` is total, which models that the swallowed
`JSON.parse` exception never escapes. -/
theorem claim_C6_malformed_payload (raw : List Char)
    (h1 : 1 < (splitOnL SUGGESTION_DELIM raw).length)
    (h2 : jsonParse (trimL ((splitOnL SUGGESTION_DELIM raw).getD 1 [])) = none) :
    parseMessageContent raw =
      ⟨trimL ((splitOnL SUGGESTION_DELIM raw).headD []), Json.arr []⟩ := by
  simp only [parseMessageContent, if_pos h1, h2]

/-- Witness for C6: a delimiter followed by an unterminated JSON array. -/
theorem claim_C6_witness :
    parseMessageContent "hello:::SUGGESTIONS:::[broken".data =
      ⟨"hello".data, Json.arr []⟩ :=
  (claim_C6_malformed_payload "hello:::SUGGESTIONS:::[broken".data
    (by decide) (by rfl)).trans (by rfl)

/-- Claim C10: the parser performs no shape validation — whatever JSON value
the segment after the first delimiter parses to (number, string, object, not
only an array of strings) is returned as the suggestions field unchanged. -/
theorem claim_C10_no_validation (raw : List Char) (v : Json)
    (h1 : 1 < (splitOnL SUGGESTION_DELIM raw).length)
    (h2 : jsonParse (trimL ((splitOnL SUGGESTION_DELIM raw).getD 1 [])) = some v) :
    (parseMessageContent raw).suggestions = v := by
  simp only [parseMessageContent, if_pos h1, h2]

/-- Witness for C10: a bare number after the delimiter is returned as the
suggestions value. -/
theorem claim_C10_witness :
    (parseMessageContent "x:::SUGGESTIONS::: 123".data).suggestions =
      Json.num "123".data :=
  claim_C10_no_validation "x:::SUGGESTIONS::: 123".data (Json.num "123".data)
    (by decide) (by rfl)

/-! ## Claim C2: the one-click-fix flow -/

/-- Number of entries when a suggestions value is an array. -/
def suggestionCount : Json → Nat
  | Json.arr l => l.length
  | _ => 0

/-- Claim C2 (amended): on the special command with a resolved apply-fixes
call, the orchestrator overwrites `draftContent` with the stripped result
(leaving it unchanged when the result is empty), finalises the pending
critic-tagged message with the fixed confirmation string — which carries
THREE suggestion chips, not two as the original claim said — and ends the
turn with the router never consulted and the processing flag cleared. -/
theorem claim_C2_one_click_fix (g : Gateway) (s : EditorState)
    (t : Option (List Char)) (hfix : g.fixesText = .ok t)
    (hfresh : ∀ m ∈ s.messages, m.id ≠ s.nextId + 1) :
    (handleSend g (some FIX_CMD) s).1.draftContent =
      (if applyEditorFixes t = [] then s.draftContent else applyEditorFixes t) ∧
    (handleSend g (some FIX_CMD) s).1.messages =
      s.messages ++
        [⟨s.nextId, .user, FIX_CMD, 0, false, none⟩,
         ⟨s.nextId + 1, .model, FIX_DONE, 0, false, some .editor⟩] ∧
    (handleSend g (some FIX_CMD) s).1.isProcessing = false ∧
    (handleSend g (some FIX_CMD) s).2.routerCalls = 0 ∧
    (parseMessageContent FIX_DONE).suggestions =
      Json.arr [Json.str "继续完善草稿".data, Json.str "再次评审".data,
        Json.str "完成项目".data] := by
  simp only [handleSend, Option.getD_some]
  rw [if_neg (by decide : ¬ (trimL FIX_CMD = []))]
  rw [if_pos trivial]
  rw [hfix]
  refine ⟨rfl, ?_, rfl, rfl, by rfl⟩
  simp only [List.map_append, List.map_cons, List.map_nil]
  rw [map_eq_self_of _ s.messages (fun m hm => if_neg (hfresh m hm))]
  rw [if_neg (by omega : ¬ (s.nextId = s.nextId + 1))]
  simp [List.append_assoc]

/-- Gateway fixture for C2: only the apply-fixes call resolves. -/
def fixGateway : Gateway :=
  ⟨.error (), .error (), .error (), .error (), .error (),
    .ok (some "修改后的草稿".data)⟩

/-- State fixture for C2: empty conversation with an existing draft. -/
def fixState : EditorState := ⟨[], [], false, "旧草稿".data, [], [], 0⟩

/-- Counterexample to C2 as stated: running the special command finalises the
pending editor message with the fixed confirmation text, but that text
carries three suggestion chips — strictly more than the two the claim
asserts. -/
theorem claim_C2_counterexample :
    (handleSend fixGateway (some FIX_CMD) fixState).1.messages =
      [⟨0, .user, FIX_CMD, 0, false, none⟩,
       ⟨1, .model, FIX_DONE, 0, false, some .editor⟩] ∧
    suggestionCount (parseMessageContent FIX_DONE).suggestions = 3 ∧
    2 < suggestionCount (parseMessageContent FIX_DONE).suggestions := by
  refine ⟨rfl, rfl, ?_⟩
  decide

/-- Witness for C2 at the concrete fixture: the draft is overwritten by the
non-empty stripped result and the confirmation message ends the turn. -/
theorem claim_C2_witness :
    (handleSend fixGateway (some FIX_CMD) fixState).1.draftContent =
      (if applyEditorFixes (some "修改后的草稿".data) = [] then
        fixState.draftContent
       else applyEditorFixes (some "修改后的草稿".data)) ∧
    (handleSend fixGateway (some FIX_CMD) fixState).1.messages =
      fixState.messages ++
        [⟨fixState.nextId, .user, FIX_CMD, 0, false, none⟩,
         ⟨fixState.nextId + 1, .model, FIX_DONE, 0, false, some .editor⟩] ∧
    (handleSend fixGateway (some FIX_CMD) fixState).1.isProcessing = false ∧
    (handleSend fixGateway (some FIX_CMD) fixState).2.routerCalls = 0 ∧
    (parseMessageContent FIX_DONE).suggestions =
      Json.arr [Json.str "继续完善草稿".data, Json.str "再次评审".data,
        Json.str "完成项目".data] :=
  claim_C2_one_click_fix fixGateway fixState (some "修改后的草稿".data) rfl
    (by simp [fixState])

/-! ## Claim C7: the critic's review subject -/

/-- Claim C7: on a turn routed to the critic, a user message longer than 50
characters is itself the critique subject; otherwise the draft is; and when
the chosen subject is empty the placeholder is finalised with the literal
nothing-to-review reply and the critique function is never called (no
critique subject is recorded). -/
theorem claim_C7_critic_subject (g : Gateway) (s : EditorState)
    (ov : Option (List Char))
    (hne : trimL (ov.getD s.inputValue) ≠ [])
    (hnf : ov.getD s.inputValue ≠ FIX_CMD)
    (hroute : determineNextAgent g.routerText = .editor)
    (hfresh : ∀ m ∈ s.messages, m.id ≠ s.nextId + 1) :
    (50 < (ov.getD s.inputValue).length →
      (handleSend g ov s).2.criticSubjects = [ov.getD s.inputValue]) ∧
    ((ov.getD s.inputValue).length ≤ 50 → s.draftContent ≠ [] →
      (handleSend g ov s).2.criticSubjects = [s.draftContent]) ∧
    ((ov.getD s.inputValue).length ≤ 50 → s.draftContent = [] →
      (handleSend g ov s).2.criticSubjects = [] ∧
      (handleSend g ov s).1.messages =
        s.messages ++
          [⟨s.nextId, .user, ov.getD s.inputValue, 0, false, none⟩,
           ⟨s.nextId + 1, .model, noReviewMsg [], 0, false, some .editor⟩]) := by
  simp only [handleSend]
  rw [if_neg hne, if_neg hnf, hroute]
  rw [if_neg (by decide : ¬ (RoleId.editor = RoleId.researcher))]
  rw [if_neg (by decide : ¬ (RoleId.editor = RoleId.executor))]
  rw [if_pos (rfl : RoleId.editor = RoleId.editor)]
  refine ⟨?_, ?_, ?_⟩
  · intro h50
    rw [if_pos h50]
    rw [if_neg (by
      intro h0
      rw [h0] at h50
      simp at h50)]
    cases g.criticChunks <;> rfl
  · intro h50 hdraft
    rw [if_neg (by omega : ¬ (50 < (ov.getD s.inputValue).length))]
    rw [if_neg hdraft]
    cases g.criticChunks <;> rfl
  · intro h50 hdraft
    rw [if_neg (by omega : ¬ (50 < (ov.getD s.inputValue).length))]
    rw [if_pos hdraft]
    refine ⟨rfl, ?_⟩
    have hsplit := updateAiMessage_split (s.nextId + 1)
      (noReviewMsg s.draftContent)
      (s.messages ++ [⟨s.nextId, .user, ov.getD s.inputValue, 0, false, none⟩])
      [] (⟨s.nextId + 1, .model, [], 0, true, some .editor⟩ : ChatMessage) rfl
      (by
        intro m hm
        rcases List.mem_append.mp hm with hm1 | hm2
        · exact hfresh m hm1
        · simp at hm2
          rw [hm2]
          simp)
      (by simp)
    simp only [List.append_assoc, List.cons_append, List.nil_append] at hsplit ⊢
    rw [hsplit, hdraft]

/-- Gateway fixture for C7: the router resolves to the critic and the critic
stream resolves. -/
def criticGateway : Gateway :=
  ⟨.ok (some "editor".data), .error (), .error (), .ok ["好".data],
    .error (), .error ()⟩

/-- State fixture for C7: empty conversation, non-empty draft. -/
def criticState : EditorState := ⟨[], [], false, "草稿".data, [], [], 0⟩

/-- An 80-character pasted text. -/
def pasted80 : List Char := List.replicate 80 'a'

/-- Witness for C7 at a concrete fixture, covering in particular the
80-character paste of scenario C. -/
theorem claim_C7_witness :
    (50 < ((some pasted80).getD criticState.inputValue).length →
      (handleSend criticGateway (some pasted80) criticState).2.criticSubjects =
        [(some pasted80).getD criticState.inputValue]) ∧
    (((some pasted80).getD criticState.inputValue).length ≤ 50 →
      criticState.draftContent ≠ [] →
      (handleSend criticGateway (some pasted80) criticState).2.criticSubjects =
        [criticState.draftContent]) ∧
    (((some pasted80).getD criticState.inputValue).length ≤ 50 →
      criticState.draftContent = [] →
      (handleSend criticGateway (some pasted80) criticState).2.criticSubjects = [] ∧
      (handleSend criticGateway (some pasted80) criticState).1.messages =
        criticState.messages ++
          [⟨criticState.nextId, .user, (some pasted80).getD criticState.inputValue,
            0, false, none⟩,
           ⟨criticState.nextId + 1, .model, noReviewMsg [], 0, false,
            some .editor⟩]) :=
  claim_C7_critic_subject criticGateway criticState (some pasted80)
    (by decide) (by decide) (by decide) (by simp [criticState])

/-! ## Claim C8: gateway failure on a routed turn -/

/-- Claim C8: when the gateway rejects the default lead-writer dispatch, the
still-pending placeholder's text becomes the fixed generic error literal with
its pending flag cleared, and the turn-in-progress flag is cleared afterwards
regardless of success or failure of the stream. -/
theorem claim_C8_error_recovery (g : Gateway) (s : EditorState)
    (ov : Option (List Char))
    (hne : trimL (ov.getD s.inputValue) ≠ [])
    (hnf : ov.getD s.inputValue ≠ FIX_CMD)
    (hroute : determineNextAgent g.routerText = .chief)
    (hclean : ∀ m ∈ s.messages, m.isThinking = false) :
    (g.chiefChunks = .error () →
      (handleSend g ov s).1.messages =
        s.messages ++
          [⟨s.nextId, .user, ov.getD s.inputValue, 0, false, none⟩,
           ⟨s.nextId + 1, .model, ERR_LIT, 0, false, some .chief⟩]) ∧
    (handleSend g ov s).1.isProcessing = false := by
  simp only [handleSend]
  rw [if_neg hne, if_neg hnf, hroute]
  rw [if_neg (by decide : ¬ (RoleId.chief = RoleId.researcher))]
  rw [if_neg (by decide : ¬ (RoleId.chief = RoleId.executor))]
  rw [if_neg (by decide : ¬ (RoleId.chief = RoleId.editor))]
  constructor
  · intro herr
    rw [herr]
    simp only [errFinish, catchMap, List.map_append, List.map_cons, List.map_nil]
    rw [map_eq_self_of _ s.messages (fun m hm => if_neg (by simp [hclean m hm]))]
    simp [List.append_assoc]
  · cases g.chiefChunks <;> rfl

/-- Gateway fixture for C8: the router resolves to the lead writer and the
lead-writer stream rejects. -/
def chiefFailGateway : Gateway :=
  ⟨.ok (some "chief".data), .error (), .error (), .error (), .error (),
    .error ()⟩

/-- State fixture for C8: one finished greeting message in the log. -/
def chiefFailState : EditorState :=
  ⟨[⟨0, .model, "你好".data, 0, false, some .chief⟩], [], false, [], [], [], 1⟩

/-- Witness for C8 at a concrete fixture. -/
theorem claim_C8_witness :
    (chiefFailGateway.chiefChunks = .error () →
      (handleSend chiefFailGateway (some "帮我写文章".data) chiefFailState).1.messages =
        chiefFailState.messages ++
          [⟨chiefFailState.nextId, .user,
            (some "帮我写文章".data).getD chiefFailState.inputValue, 0, false, none⟩,
           ⟨chiefFailState.nextId + 1, .model, ERR_LIT, 0, false, some .chief⟩]) ∧
    (handleSend chiefFailGateway (some "帮我写文章".data) chiefFailState).1.isProcessing =
      false :=
  claim_C8_error_recovery chiefFailGateway chiefFailState
    (some "帮我写文章".data) (by decide) (by decide) (by decide)
    (by
      intro m hm
      simp [chiefFailState] at hm
      rw [hm])

/-! ## Claim C5: suggestion-chip round trip

The split model first: the fuel argument is irrelevant as long as it covers
the input, splitting a separator-free list is the identity, and a list whose
first separator occurrence sits exactly at the marked boundary splits there. -/

/-- Fuel beyond the input length does not change `splitGo`. -/
theorem splitGo_fuel_irrel (sep : List Char) (f : Nat) :
    ∀ l : List Char, l.length ≤ f → splitGo sep f l = splitGo sep l.length l := by
  induction f using Nat.strong_induction_on with
  | _ f ih =>
    intro l hlen
    match f, l with
    | 0, l =>
      have : l = [] := List.length_eq_zero.mp (Nat.le_zero.mp hlen)
      rw [this]
      rfl
    | f + 1, [] => rfl
    | f + 1, x :: xs =>
      have hxx : (x :: xs).length = xs.length + 1 := by simp
      have hdl : ((x :: xs).drop sep.length).length = xs.length + 1 - sep.length := by
        simp
      rw [splitGo]
      rw [show (x :: xs).length = xs.length + 1 from rfl, splitGo]
      by_cases hp : 0 < sep.length ∧ sep.isPrefixOf (x :: xs)
      · have hsl := hp.1
        rw [if_pos hp, if_pos hp]
        rw [ih f (by omega) _ (by omega)]
        rw [ih xs.length (by omega) _ (by omega)]
      · rw [if_neg hp, if_neg hp]
        rw [ih f (by omega) xs (by omega)]

/-- `splitGo` at canonical fuel is `splitOnL`. -/
theorem splitGo_eq_splitOnL (sep : List Char) (f : Nat) (l : List Char)
    (h : l.length ≤ f) : splitGo sep f l = splitOnL sep l :=
  splitGo_fuel_irrel sep f l h

/-- Splitting a list that contains no occurrence of the separator yields the
singleton list. -/
theorem splitOnL_of_not_infix (sep : List Char) :
    ∀ (f : Nat) (l : List Char), l.length ≤ f → ¬ sep <:+: l →
      splitGo sep f l = [l] := by
  intro f
  induction f with
  | zero =>
    intro l hlen _
    rw [List.length_eq_zero.mp (Nat.le_zero.mp hlen)]
    rfl
  | succ f ih =>
    intro l hlen hinf
    match l with
    | [] => rfl
    | x :: xs =>
      rw [splitGo]
      have hnp : ¬ (0 < sep.length ∧ sep.isPrefixOf (x :: xs)) := by
        rintro ⟨_, hp⟩
        exact hinf (List.isPrefixOf_iff_prefix.mp hp).isInfix
      rw [if_neg hnp]
      rw [ih xs (by simp at hlen ⊢; omega)
        (fun h => hinf (h.trans (List.suffix_cons x xs).isInfix))]
      rfl

/-- When no non-empty suffix of `dt` begins an occurrence of the separator,
the split of `dt ++ sep ++ J` puts the boundary exactly after `dt`. -/
theorem splitOnL_boundary (sep J : List Char) (hsep : 0 < sep.length) :
    ∀ dt : List Char,
      (∀ p, p <:+ dt → p ≠ [] → ¬ sep.isPrefixOf (p ++ (sep ++ J))) →
      splitOnL sep (dt ++ sep ++ J) = dt :: splitOnL sep J := by
  intro dt
  induction dt with
  | nil =>
    intro _
    obtain ⟨c, sep', rfl⟩ : ∃ c s', sep = c :: s' := by
      cases sep
      · simp at hsep
      · exact ⟨_, _, rfl⟩
    simp only [List.nil_append]
    rw [splitOnL, show (c :: sep') ++ J = c :: (sep' ++ J) from rfl,
      show (c :: (sep' ++ J)).length = (sep' ++ J).length + 1 from rfl, splitGo]
    rw [if_pos ⟨hsep, List.isPrefixOf_iff_prefix.mpr
      (show (c :: sep') <+: (c :: sep') ++ J from List.prefix_append _ _)⟩]
    rw [show ((c :: (sep' ++ J)).drop (c :: sep').length) = J from
      List.drop_left (c :: sep') J]
    rw [splitGo_eq_splitOnL _ _ _ (by simp)]
  | cons x dt' ih =>
    intro H
    rw [show (x :: dt') ++ sep ++ J = x :: (dt' ++ sep ++ J) from by simp]
    rw [splitOnL,
      show (x :: (dt' ++ sep ++ J)).length = (dt' ++ sep ++ J).length + 1 from rfl,
      splitGo]
    rw [if_neg (by
      rintro ⟨_, hp⟩
      refine H (x :: dt') (List.suffix_refl _) (by simp) ?_
      rw [show (x :: dt') ++ (sep ++ J) = x :: (dt' ++ sep ++ J) from by simp]
      exact hp)]
    rw [show splitGo sep (dt' ++ sep ++ J).length (dt' ++ sep ++ J) =
      splitOnL sep (dt' ++ sep ++ J) from rfl]
    rw [ih (fun p hs hne => H p (hs.trans (List.suffix_cons x dt')) hne)]
    rfl

/-- The clean boundary hypothesis: when the separator does not occur in
`dt ++ sep.dropLast`, no non-empty suffix of `dt` can begin an occurrence of
the separator in `dt ++ sep ++ J` — any such occurrence would fit inside
`dt` extended by at most `sep.length - 1` further characters. -/
theorem no_inner_occurrence (sep dt J : List Char)
    (h1 : ¬ sep <:+: (dt ++ sep.dropLast)) :
    ∀ p, p <:+ dt → p ≠ [] → ¬ sep.isPrefixOf (p ++ (sep ++ J)) := by
  intro p hsuf hne hpre
  rw [List.isPrefixOf_iff_prefix] at hpre
  obtain ⟨u, rfl⟩ := hsuf
  by_cases hlen : sep.length ≤ p.length
  · have hsp : sep <+: p := (List.isPrefix_append_of_length hlen).mp hpre
    exact h1 ((hsp.isInfix.trans (List.suffix_append u p).isInfix).trans
      (List.prefix_append (u ++ p) sep.dropLast).isInfix)
  · push_neg at hlen
    have hpl : 1 ≤ p.length := by
      have := List.length_pos.mpr hne
      omega
    have heq : sep = p ++ sep.take (sep.length - p.length) := by
      obtain ⟨t, ht⟩ := hpre
      have h2 := congrArg (List.take sep.length) ht
      rw [List.take_left' rfl] at h2
      rw [List.take_append_eq_append_take,
        List.take_of_length_le (by omega : p.length ≤ sep.length),
        List.take_append_of_le_length (by omega : sep.length - p.length ≤ sep.length)]
        at h2
      exact h2
    have h2 : sep <+: p ++ sep.dropLast := by
      calc sep = p ++ sep.take (sep.length - p.length) := heq
        _ <+: p ++ sep.dropLast := by
          rw [List.prefix_append_right_inj, List.dropLast_eq_take]
          rw [show sep.take (sep.length - p.length) =
              (sep.take (sep.length - 1)).take (sep.length - p.length) from by
            rw [List.take_take]
            congr 1
            omega]
          exact List.take_prefix _ _
    apply h1
    rw [List.append_assoc]
    exact h2.isInfix.trans (List.suffix_append u (p ++ sep.dropLast)).isInfix

/-! ### The JSON round trip on stringified arrays of strings -/

/-- Skipping white space leaves a list whose head is not white space alone. -/
theorem skipWs_cons_of_not (c : Char) (t : List Char) (h : isWsJ c = false) :
    skipWs (c :: t) = c :: t := by
  simp [skipWs, List.dropWhile_cons, h]

/-- The hexadecimal digit emitter and reader are inverse below 16. -/
theorem hexVal_hexDig : ∀ n : Nat, n < 16 → hexVal (hexDig n) = some n := by
  decide

theorem escBody_nil : escBody [] = [] := rfl

theorem escBody_cons (c : Char) (s : List Char) :
    escBody (c :: s) = escChar c ++ escBody s := by
  simp [escBody]

/-- String-literal round trip: un-escaping the `JSON.stringify` escape of a
string consumes exactly through the closing quote and recovers the string. -/
theorem parseStrBody_escBody (s : List Char) :
    ∀ rest : List Char,
      parseStrBody (escBody s ++ '"' :: rest) = some (s, rest) := by
  induction s with
  | nil =>
    intro rest
    rw [escBody_nil, List.nil_append]
    rw [parseStrBody.eq_def]
    simp
  | cons c s ih =>
    intro rest
    rw [escBody_cons, List.append_assoc]
    by_cases h1 : c = '"'
    · subst h1
      rw [show escChar '"' = ['\\', '"'] from by decide]
      rw [parseStrBody.eq_def]
      simp [ih rest]
    · by_cases h2 : c = '\\'
      · subst h2
        rw [show escChar '\\' = ['\\', '\\'] from by decide]
        rw [parseStrBody.eq_def]
        simp [ih rest]
      · by_cases h3 : c = '\x08'
        · subst h3
          rw [show escChar '\x08' = ['\\', 'b'] from by decide]
          rw [parseStrBody.eq_def]
          simp [ih rest]
        · by_cases h4 : c = '\x0c'
          · subst h4
            rw [show escChar '\x0c' = ['\\', 'f'] from by decide]
            rw [parseStrBody.eq_def]
            simp [ih rest]
          · by_cases h5 : c = '\n'
            · subst h5
              rw [show escChar '\n' = ['\\', 'n'] from by decide]
              rw [parseStrBody.eq_def]
              simp [ih rest]
            · by_cases h6 : c = '\r'
              · subst h6
                rw [show escChar '\r' = ['\\', 'r'] from by decide]
                rw [parseStrBody.eq_def]
                simp [ih rest]
              · by_cases h7 : c = '\t'
                · subst h7
                  rw [show escChar '\t' = ['\\', 't'] from by decide]
                  rw [parseStrBody.eq_def]
                  simp [ih rest]
                · by_cases hctl : c.toNat < 0x20
                  · rw [show escChar c = ['\\', 'u', '0', '0',
                        hexDig (c.toNat / 16), hexDig (c.toNat % 16)] from by
                      rw [escChar, if_neg h1, if_neg h2, if_neg h3, if_neg h4,
                        if_neg h5, if_neg h6, if_neg h7, if_pos hctl]]
                    have hv1 : hexVal (hexDig (c.toNat / 16)) =
                        some (c.toNat / 16) := hexVal_hexDig _ (by omega)
                    have hv2 : hexVal (hexDig (c.toNat % 16)) =
                        some (c.toNat % 16) := hexVal_hexDig _ (by omega)
                    simp only [List.cons_append, List.nil_append]
                    rw [parseStrBody.eq_def]
                    simp only [show hexVal '0' = some 0 from by decide, hv1, hv2]
                    norm_num
                    rw [show c.toNat / 16 * 16 + c.toNat % 16 = c.toNat from by
                      omega]
                    rw [if_pos (Or.inl (by omega : c.toNat < 0xd800))]
                    simp [Char.ofNat_toNat, ih rest]
                  · rw [show escChar c = [c] from by
                      rw [escChar, if_neg h1, if_neg h2, if_neg h3, if_neg h4,
                        if_neg h5, if_neg h6, if_neg h7, if_neg hctl]]
                    rw [parseStrBody.eq_def]
                    simp [h1, h2, hctl, ih rest]

/-- One-step reduction of `parseValue` on a string literal. -/
theorem parseValue_cons_quote (f : Nat) (tail : List Char) :
    parseValue (f + 1) ('"' :: tail) =
      (parseStrBody tail).map (fun p => (Json.str p.1, p.2)) := by
  rw [parseValue, skipWs_cons_of_not _ _ (by decide)]
  simp

/-- One-step reduction of `parseValue` on an array opener. -/
theorem parseValue_cons_lbracket (f : Nat) (tail : List Char) :
    parseValue (f + 1) ('[' :: tail) =
      (if (skipWs tail).headD ' ' = ']' then
        some (Json.arr [], (skipWs tail).tail)
      else (parseElems f (skipWs tail)).map (fun p => (Json.arr p.1, p.2))) := by
  rw [parseValue, skipWs_cons_of_not _ _ (by decide)]
  simp

/-- Element-list round trip: parsing the comma-joined encoded elements up to
the closing bracket recovers the string values. -/
theorem parseElems_encode :
    ∀ (l : List (List Char)) (f : Nat) (rest : List Char), l ≠ [] →
      l.length < f →
      parseElems f (encodeElems l ++ ']' :: rest) =
        some (l.map Json.str, rest) := by
  intro l
  induction l with
  | nil => intro f rest h _; exact absurd rfl h
  | cons s l ih =>
    intro f rest _ hlen
    obtain ⟨f1, rfl⟩ : ∃ f1, f = f1 + 1 := ⟨f - 1, by omega⟩
    rw [parseElems]
    cases l with
    | nil =>
      rw [show encodeElems [s] = escStr s from rfl]
      rw [show escStr s ++ ']' :: rest =
          '"' :: (escBody s ++ '"' :: (']' :: rest)) from by simp [escStr]]
      obtain ⟨f2, rfl⟩ : ∃ f2, f1 = f2 + 1 := ⟨f1 - 1, by simp at hlen; omega⟩
      rw [parseValue_cons_quote, parseStrBody_escBody]
      simp only [Option.map_some']
      rw [skipWs_cons_of_not _ _ (by decide)]
      simp
    | cons s2 l2 =>
      rw [show encodeElems (s :: s2 :: l2) =
          escStr s ++ ',' :: encodeElems (s2 :: l2) from rfl]
      rw [show (escStr s ++ ',' :: encodeElems (s2 :: l2)) ++ ']' :: rest =
          '"' :: (escBody s ++ '"' ::
            (',' :: (encodeElems (s2 :: l2) ++ ']' :: rest))) from by
        simp [escStr]]
      obtain ⟨f2, rfl⟩ : ∃ f2, f1 = f2 + 1 := ⟨f1 - 1, by simp at hlen; omega⟩
      rw [parseValue_cons_quote, parseStrBody_escBody]
      simp only [Option.map_some']
      rw [skipWs_cons_of_not _ _ (by decide)]
      rw [show ((',' : Char) :: (encodeElems (s2 :: l2) ++ ']' :: rest) =
          ',' :: (encodeElems (s2 :: l2) ++ ']' :: rest)) from rfl]
      simp only []
      rw [ih (f2 + 1) rest (by simp) (by simp at hlen ⊢; omega)]
      simp

/-- The encoded element list is at least as long as the element count. -/
theorem length_le_encodeElems :
    ∀ l : List (List Char), l.length ≤ (encodeElems l).length := by
  intro l
  induction l with
  | nil => simp [encodeElems]
  | cons s l ih =>
    cases l with
    | nil => simp [encodeElems, escStr]
    | cons s2 l2 =>
      rw [show encodeElems (s :: s2 :: l2) =
          escStr s ++ ',' :: encodeElems (s2 :: l2) from rfl]
      simp only [List.length_cons, List.length_append, escStr] at ih ⊢
      omega

/-- Full round trip: `JSON.parse` of `JSON.stringify` of an array of strings
recovers exactly the array. -/
theorem jsonParse_stringify (l : List (List Char)) :
    jsonParse (jsonStringifyList l) = some (Json.arr (l.map Json.str)) := by
  cases l with
  | nil => rfl
  | cons s l2 =>
    rw [jsonParse]
    rw [show jsonStringifyList (s :: l2) =
        '[' :: (encodeElems (s :: l2) ++ ']' :: []) from by
      simp [jsonStringifyList]]
    rw [show ('[' :: (encodeElems (s :: l2) ++ ']' :: [])).length + 1 =
        ((encodeElems (s :: l2)).length + 2) + 1 from by simp]
    rw [parseValue_cons_lbracket]
    have hshape : ∃ t, encodeElems (s :: l2) ++ ']' :: [] = '"' :: t := by
      cases l2 with
      | nil => exact ⟨escBody s ++ ['"', ']'], by simp [encodeElems, escStr]⟩
      | cons s2 l3 =>
        exact ⟨escBody s ++ '"' :: ',' :: (encodeElems (s2 :: l3) ++ [']']),
          by simp [encodeElems, escStr]⟩
    obtain ⟨t, ht⟩ := hshape
    rw [ht, skipWs_cons_of_not _ _ (by decide), ← ht]
    rw [if_neg (by rw [ht]; simp)]
    rw [parseElems_encode (s :: l2) _ [] (by simp) (by
      have := length_le_encodeElems (s :: l2)
      omega)]
    simp [skipWs]

/-- Trimming fixes a bracketed list. -/
theorem trimL_bracketed (mid : List Char) :
    trimL ('[' :: (mid ++ [']'])) = '[' :: (mid ++ [']']) := by
  rw [trimL]
  rw [show List.dropWhile isWsT ('[' :: (mid ++ [']'])) = '[' :: (mid ++ [']'])
    from by simp [List.dropWhile_cons, show isWsT '[' = false from by decide]]
  rw [show ('[' :: (mid ++ [']'])).reverse = ']' :: (mid.reverse ++ ['['])
    from by simp]
  rw [show List.dropWhile isWsT (']' :: (mid.reverse ++ ['['])) =
      ']' :: (mid.reverse ++ ['[']) from by
    simp [List.dropWhile_cons, show isWsT ']' = false from by decide]]
  simp

/-- Claim C5 (amended): the suggestion-chip round trip holds for every
display text in which the delimiter's first occurrence in the concatenation
is at the marked boundary — that is, the delimiter occurs nowhere in
`displayText ++ delimiter.dropLast` (in particular, `displayText` neither
contains the delimiter nor ends in a fragment that the delimiter's own tail
completes) — and every list of strings whose JSON serialisation does not
contain the delimiter: parsing `displayText ++ delimiter ++ stringify(list)`
yields the trimmed display text and exactly the list, in order.  (The
original unconditional claim over all lists is refuted by
`claim_C5_counterexample`.) -/
theorem claim_C5_suggestion_roundtrip (dt : List Char) (l : List (List Char))
    (h1 : ¬ SUGGESTION_DELIM <:+: (dt ++ SUGGESTION_DELIM.dropLast))
    (h2 : ¬ SUGGESTION_DELIM <:+: jsonStringifyList l) :
    parseMessageContent (dt ++ SUGGESTION_DELIM ++ jsonStringifyList l) =
      ⟨trimL dt, Json.arr (l.map Json.str)⟩ := by
  have hsplit : splitOnL SUGGESTION_DELIM
      (dt ++ SUGGESTION_DELIM ++ jsonStringifyList l) =
      dt :: splitOnL SUGGESTION_DELIM (jsonStringifyList l) :=
    splitOnL_boundary SUGGESTION_DELIM (jsonStringifyList l) (by decide) dt
      (no_inner_occurrence SUGGESTION_DELIM dt (jsonStringifyList l) h1)
  have hJ : splitOnL SUGGESTION_DELIM (jsonStringifyList l) =
      [jsonStringifyList l] :=
    splitOnL_of_not_infix SUGGESTION_DELIM _ _ (Nat.le_refl _) h2
  have htr : trimL (jsonStringifyList l) = jsonStringifyList l := by
    rw [show jsonStringifyList l = '[' :: (encodeElems l ++ [']']) from by
      simp [jsonStringifyList]]
    exact trimL_bracketed _
  rw [parseMessageContent, hsplit, hJ]
  simp [htr, jsonParse_stringify l]

/-- Counterexample to C5 as stated: for the one-element list whose element is
the delimiter itself, the serialised payload contains the delimiter, the
split cuts inside it, `JSON.parse` fails, and the suggestions come back empty
instead of as the original one-element list. -/
theorem claim_C5_counterexample :
    (parseMessageContent ("a".data ++ SUGGESTION_DELIM ++
        jsonStringifyList [SUGGESTION_DELIM])).suggestions = Json.arr [] ∧
    suggestionCount (parseMessageContent ("a".data ++ SUGGESTION_DELIM ++
        jsonStringifyList [SUGGESTION_DELIM])).suggestions = 0 ∧
    ([SUGGESTION_DELIM] : List (List Char)).length = 1 :=
  ⟨rfl, rfl, rfl⟩

/-- Witness for C5 at a concrete display text and list. -/
theorem claim_C5_witness :
    parseMessageContent ("hi".data ++ SUGGESTION_DELIM ++
        jsonStringifyList ["a".data, "b".data]) =
      ⟨"hi".data, Json.arr [Json.str "a".data, Json.str "b".data]⟩ :=
  (claim_C5_suggestion_roundtrip "hi".data ["a".data, "b".data]
    (by decide) (by decide)).trans (by rfl)

end WS
